import Mathlib

/-!
Verification of the youtube-downloader-processor pipeline (`src/youtube.py`).

The Python module is shallowly embedded: pure helpers (`sanitize_filename`,
`os.path.basename`, `os.path.splitext`, Python's `str.strip`) become Lean
functions over `String`/`List Char`; the downloader's mutable state (the
processed-archive set plus its backing file, the tqdm progress-bar registry,
the list of files queued for processing) becomes explicit state records;
the ffmpeg subprocess and `os.rename` are modelled by outcome parameters
(exit code, output-file existence/size, a rename-failure oracle).
-/

/-- Python's whitespace set used by `str.strip()`. -/
def isPyWhitespace (c : Char) : Bool :=
  c == ' ' || c == '\t' || c == '\n' || c == '\r' || c == '\x0b' || c == '\x0c'

/-- Python `str.strip()`: drop leading and trailing whitespace. -/
def pyStrip (s : String) : String :=
  String.mk (((s.data.dropWhile isPyWhitespace).reverse.dropWhile isPyWhitespace).reverse)

/-- `os.path.basename` (posix): everything after the last slash. -/
def basename (s : String) : String :=
  String.mk ((s.data.reverse.takeWhile (fun c => c ≠ '/')).reverse)

/-- `os.path.splitext` on the character list: split the basename at its last
dot, provided some non-dot character of the basename comes before that dot
(so dotfiles such as `.bashrc` keep an empty extension). -/
def splitextChars (p : List Char) : List Char × List Char :=
  let b := (p.reverse.takeWhile (fun c => c ≠ '/')).reverse
  let extRev := b.reverse.takeWhile (fun c => c ≠ '.')
  if extRev.length = b.length then (p, [])
  else
    let pre := b.take (b.length - extRev.length - 1)
    if pre.any (fun c => c ≠ '.') then
      (p.take (p.length - extRev.length - 1), '.' :: extRev.reverse)
    else (p, [])

/-- `os.path.splitext`. -/
def splitext (s : String) : String × String :=
  let r := splitextChars s.data
  (String.mk r.1, String.mk r.2)

/-- Python `pat in s` (substring containment). -/
def hasSubstr (pat : List Char) : List Char → Bool
  | [] => pat.isEmpty
  | c :: rest => pat.isPrefixOf (c :: rest) || hasSubstr pat rest

/-- Python `pat in s` on strings. -/
def containsSub (s pat : String) : Bool := hasSubstr pat.data s.data

/-- Python `s.startswith(pre)`. -/
def strStartsWith (s pre : String) : Bool := pre.data.isPrefixOf s.data

/-- Python `s.endswith(suf)`. -/
def strEndsWith (s suf : String) : Bool := suf.data.isSuffixOf s.data

/-- The character class removed by `sanitize_filename` (`[\\/*?:"<>|]`). -/
def invalidFilenameChars : List Char := ['\\', '/', '*', '?', ':', '"', '<', '>', '|']

/-- Whether `sanitize_filename` replaces this character. -/
def isInvalidFilenameChar (c : Char) : Bool := invalidFilenameChars.contains c

/-- `sanitize_filename`: replace every filesystem-unsafe character by `_`. -/
def sanitize_filename (name : String) : String :=
  String.mk (name.data.map (fun c => if isInvalidFilenameChar c then '_' else c))

/-- Relevant fields of the parsed CLI arguments, with the parser's defaults. -/
structure Args where
  filename_suffix : String := "Processed"
  skip_processing : Bool := false
  audio_only : Bool := false
  keep_original : Bool := false
  process_mode : String := "encode"
  audio_codec : String := "encode"
  audio_bitrate : String := "192"
  preset : String := "slow"
  crf : Int := 18
deriving DecidableEq

/-- The processed archive: the backing file's contents plus the in-memory set
(modelled as a duplicate-free list). -/
structure ArchiveState where
  file : String
  mem : List String
deriving DecidableEq

/-- Python `set.add`. -/
def setAdd (l : List String) (k : String) : List String :=
  if k ∈ l then l else l ++ [k]

/-- File lines: split the contents at newline characters (accumulator holds
the current line reversed). -/
def splitLinesAux : List Char → List Char → List (List Char)
  | acc, [] => [acc.reverse]
  | acc, c :: rest =>
      if c = '\n' then acc.reverse :: splitLinesAux [] rest
      else splitLinesAux (c :: acc) rest

/-- File lines of a string. -/
def splitLines (s : String) : List String :=
  (splitLinesAux [] s.data).map (fun l => String.mk l)

/-- `_load_processed_archive`: missing file yields the empty set; otherwise
the set of stripped non-empty lines (`set(line.strip() for line in f if line.strip())`). -/
def load_processed_archive : Option String → List String
  | none => []
  | some s => (((splitLines s).map pyStrip).filter (fun l => l ≠ "")).dedup

/-- `_save_to_processed_archive`: append one line to the backing file, then
add the key to the in-memory set. -/
def save_to_processed_archive (st : ArchiveState) (filename : String) : ArchiveState :=
  { file := st.file ++ filename ++ "\n", mem := setAdd st.mem filename }

/-- `_get_valid_url`: resolve an identifier to a list of URLs, or exit with
an error for unrecognized input. -/
def get_valid_url (identifier : String) : Except String (List String) :=
  if containsSub identifier "playlist?list=" = true ∨ containsSub identifier "watch?v=" = true then
    .ok [identifier]
  else if strStartsWith identifier "@" = true then
    .ok ["https://www.youtube.com/" ++ identifier ++ "/videos",
         "https://www.youtube.com/" ++ identifier ++ "/shorts"]
  else if strStartsWith identifier "UC" = true then
    .ok ["https://www.youtube.com/channel/" ++ identifier ++ "/videos",
         "https://www.youtube.com/channel/" ++ identifier ++ "/shorts"]
  else if strStartsWith identifier "https://" = true then
    .ok [identifier]
  else
    .error "Invalid identifier or URL."

/-- A yt-dlp progress-hook event dictionary (the fields the hook reads). -/
structure HookEvent where
  status : String
  infoId : Option String := none
  filename : Option String := none
  totalBytes : Option Nat := none
  downloadedBytes : Option Nat := none
deriving DecidableEq

/-- Python truthiness of an optional string (`None` and `""` are falsy). -/
def optTruthy : Option String → Bool
  | none => false
  | some s => s ≠ ""

/-- `d.get('info_dict', {}).get('id') or os.path.basename(d.get('filename', ''))`. -/
def hookFileId (d : HookEvent) : String :=
  if optTruthy d.infoId = true then d.infoId.getD "" else basename (d.filename.getD "")

/-- tqdm registry lookup (`file_id in self.tqdm_progress_bars` / indexing). -/
def barsGet : List (String × Int) → String → Option Int
  | [], _ => none
  | (k, v) :: rest, key => if k = key then some v else barsGet rest key

/-- tqdm registry write (`self.tqdm_progress_bars[file_id] = ...` / `pbar.n` update). -/
def barsSet : List (String × Int) → String → Int → List (String × Int)
  | [], key, v => [(key, v)]
  | (k, w) :: rest, key, v =>
      if k = key then (k, v) :: rest else (k, w) :: barsSet rest key v

/-- tqdm registry delete (`del self.tqdm_progress_bars[file_id]`, after `close`). -/
def barsErase : List (String × Int) → String → List (String × Int)
  | [], _ => []
  | (k, w) :: rest, key => if k = key then rest else (k, w) :: barsErase rest key

/-- The downloader's mutable state: CLI args (suffix already sanitized by the
constructor), the processing queue, the progress-bar registry, the archive. -/
structure DState where
  args : Args
  files_to_process : List String
  bars : List (String × Int)
  archive : ArchiveState
deriving DecidableEq

/-- `YoutubeDownloader.__init__`: sanitize the suffix, start with empty queue
and bar registry, load the processed archive from the (optional) file. -/
def mkDownloader (args : Args) (archiveContents : Option String) : DState :=
  { args := { args with filename_suffix := sanitize_filename args.filename_suffix },
    files_to_process := [],
    bars := [],
    archive := { file := archiveContents.getD "",
                 mem := load_processed_archive archiveContents } }

/-- `_progress_hook`: derive the item key; on a `downloading` event create the
bar if needed and advance it by `downloaded - pbar.n`; on a `finished` event
close the bar and, unless skip-processing is set or the path is already in the
processed archive, enqueue the destination path. -/
def progress_hook (st : DState) (d : HookEvent) : DState :=
  let file_id := hookFileId d
  if file_id = "" then st
  else if d.status = "downloading" then
    let bars0 := if (barsGet st.bars file_id).isNone then barsSet st.bars file_id 0 else st.bars
    let n := (barsGet bars0 file_id).getD 0
    let downloaded : Int := Int.ofNat (d.downloadedBytes.getD 0)
    { st with bars := barsSet bars0 file_id (n + (downloaded - n)) }
  else if d.status = "finished" then
    let bars1 := barsErase st.bars file_id
    if optTruthy d.filename = false then { st with bars := bars1 }
    else
      let final_filepath := d.filename.getD ""
      if st.args.skip_processing = false then
        if st.archive.mem.contains final_filepath = false then
          { st with bars := bars1,
                    files_to_process := st.files_to_process ++ [final_filepath] }
        else { st with bars := bars1 }
      else { st with bars := bars1 }
  else st

/-- `audio_cmd` in `process_single_video`. -/
def buildAudioCmd (args : Args) : List String :=
  if args.audio_codec = "copy" then ["-c:a", "copy"]
  else ["-c:a", "aac", "-b:a", args.audio_bitrate ++ "k"]

/-- `video_cmd` in `process_single_video`. -/
def buildVideoCmd (args : Args) : List String :=
  if args.process_mode = "copy" then ["-c:v", "copy"]
  else ["-c:v", "libx264", "-preset", args.preset, "-crf", toString args.crf]

/-- `cmd = ["ffmpeg", "-y", "-i", filename] + video_cmd + audio_cmd + [output_file]`. -/
def buildCmd (args : Args) (filename output_file : String) : List String :=
  ["ffmpeg", "-y", "-i", filename] ++ buildVideoCmd args ++ buildAudioCmd args ++ [output_file]

/-- Observable outcome of the ffmpeg subprocess and the output-file probe. -/
structure TranscodeOutcome where
  exitCode : Nat
  outputExists : Bool
  outputSize : Nat
deriving DecidableEq

/-- Return value of `process_single_video` (None / success message / failure message). -/
inductive ProcResult where
  | skipped
  | success (outputFile : String)
  | failure (message : String)
deriving DecidableEq

/-- Effect record of one `process_single_video` call. -/
structure VideoStep where
  result : ProcResult
  archive : ArchiveState
  sourceDeleted : Bool
  invokedTranscoder : Bool
  cmd : Option (List String)
deriving DecidableEq

/-- `process_single_video`: skip in audio-only mode, skip when the base name
already ends with the suffix; otherwise run ffmpeg; on zero exit with an
existing non-empty output delete the source (unless keep-original) and append
the output path to the processed archive; otherwise report failure. -/
def process_single_video (args : Args) (arch : ArchiveState) (filename : String)
    (t : TranscodeOutcome) : VideoStep :=
  if args.audio_only = true then ⟨.skipped, arch, false, false, none⟩
  else
    let base := (splitext filename).1
    if strEndsWith base args.filename_suffix = true then ⟨.skipped, arch, false, false, none⟩
    else
      let output_file := base ++ "_" ++ args.filename_suffix ++ ".mp4"
      let cmd := buildCmd args filename output_file
      if t.exitCode ≠ 0 then
        ⟨.failure "FFmpeg error", arch, false, true, some cmd⟩
      else if t.outputExists = true ∧ 0 < t.outputSize then
        ⟨.success output_file, save_to_processed_archive arch output_file,
         !args.keep_original, true, some cmd⟩
      else
        ⟨.failure "Processing failed", arch, false, true, some cmd⟩

/-- Per-file outcome of the audio rename pass. -/
inductive AudioEvent where
  | renamed (oldPath newPath : String)
  | renameFailed (path : String)
  | skipped (path : String)
deriving DecidableEq

/-- The renamed path: suffix (with `_`) inserted before the extension. -/
def audioNewName (args : Args) (filepath : String) : String :=
  (splitext filepath).1 ++ "_" ++ args.filename_suffix ++ (splitext filepath).2

/-- `process_audio_files_concurrently`: sequential pass; rename each file that
does not already carry the suffix (OSError is logged and the loop continues),
recording successes in the processed archive. `renameFails` is the
`os.rename` failure oracle. -/
def process_audio_files (args : Args) (renameFails : String → Bool) :
    ArchiveState → List String → ArchiveState × List AudioEvent
  | arch, [] => (arch, [])
  | arch, filepath :: rest =>
    let base := (splitext filepath).1
    let ext := (splitext filepath).2
    if strEndsWith base args.filename_suffix = false then
      let new_filepath := base ++ "_" ++ args.filename_suffix ++ ext
      if renameFails filepath = true then
        let r := process_audio_files args renameFails arch rest
        (r.1, .renameFailed filepath :: r.2)
      else
        let r := process_audio_files args renameFails
          (save_to_processed_archive arch new_filepath) rest
        (r.1, .renamed filepath new_filepath :: r.2)
    else
      let r := process_audio_files args renameFails arch rest
      (r.1, .skipped filepath :: r.2)

/-- The event the audio pass records for one file. -/
def audioEventFor (args : Args) (renameFails : String → Bool) (filepath : String) : AudioEvent :=
  if strEndsWith (splitext filepath).1 args.filename_suffix = false then
    if renameFails filepath = true then .renameFailed filepath
    else .renamed filepath (audioNewName args filepath)
  else .skipped filepath

/-! ## Helper lemmas -/

lemma sanitize_all_safe (s : String) :
    (sanitize_filename s).data.all (fun c => !isInvalidFilenameChar c) = true := by
  simp only [sanitize_filename, List.all_eq_true]
  intro c hc
  rcases List.mem_map.mp hc with ⟨d, _, rfl⟩
  by_cases h : isInvalidFilenameChar d = true
  · simp [h]; decide
  · simp [h]

lemma sanitize_idem (s : String) :
    sanitize_filename (sanitize_filename s) = sanitize_filename s := by
  simp only [sanitize_filename, List.map_map]
  congr 1
  apply List.map_congr_left
  intro c _
  by_cases h : isInvalidFilenameChar c = true
  · simp [h]
  · simp [h]

/-! ## C6: transcode command construction -/

/-- C6: for every combination of process mode and audio-codec mode the ffmpeg
command is exactly binary, overwrite flag, input, video args, audio args,
output; video copy is a stream copy, video encode uses libx264 with the
configured preset and CRF, audio copy is a stream copy, audio encode uses aac
with the configured bitrate followed by `k` (bitrate `192` gives `192k`). -/
theorem claim_C6_command_construction (a : Args) (fn out : String) :
    buildCmd { a with process_mode := "copy", audio_codec := "copy" } fn out
      = ["ffmpeg", "-y", "-i", fn, "-c:v", "copy", "-c:a", "copy", out]
  ∧ buildCmd { a with process_mode := "copy", audio_codec := "encode" } fn out
      = ["ffmpeg", "-y", "-i", fn, "-c:v", "copy",
         "-c:a", "aac", "-b:a", a.audio_bitrate ++ "k", out]
  ∧ buildCmd { a with process_mode := "encode", audio_codec := "copy" } fn out
      = ["ffmpeg", "-y", "-i", fn, "-c:v", "libx264", "-preset", a.preset,
         "-crf", toString a.crf, "-c:a", "copy", out]
  ∧ buildCmd { a with process_mode := "encode", audio_codec := "encode" } fn out
      = ["ffmpeg", "-y", "-i", fn, "-c:v", "libx264", "-preset", a.preset,
         "-crf", toString a.crf, "-c:a", "aac", "-b:a", a.audio_bitrate ++ "k", out]
  ∧ buildAudioCmd { a with audio_codec := "encode", audio_bitrate := "192" }
      = ["-c:a", "aac", "-b:a", "192k"] := by
  refine ⟨?_, ?_, ?_, ?_, ?_⟩ <;> simp [buildCmd, buildVideoCmd, buildAudioCmd]

/-! ## C9: suffix sanitization invariant -/

/-- C9: the constructor stores the sanitized filename suffix, the stored
suffix contains no filesystem-unsafe character, and sanitization is
idempotent (so the suffix in effect throughout the run is the sanitized one). -/
theorem claim_C9_suffix_sanitized (args : Args) (fc : Option String) :
    (mkDownloader args fc).args.filename_suffix = sanitize_filename args.filename_suffix
  ∧ ((mkDownloader args fc).args.filename_suffix.data.all
       (fun c => !isInvalidFilenameChar c)) = true
  ∧ sanitize_filename ((mkDownloader args fc).args.filename_suffix)
      = (mkDownloader args fc).args.filename_suffix := by
  refine ⟨rfl, ?_, ?_⟩
  · exact sanitize_all_safe args.filename_suffix
  · exact sanitize_idem args.filename_suffix

/-! ## C10: loading the processed archive -/

/-- C10: loading the archive is total: a missing file yields the empty set,
and for an existing file the loaded set holds a key exactly when it is the
strip of some line of the file and non-empty. -/
theorem claim_C10_load_archive :
    load_processed_archive none = []
  ∧ ∀ (c k : String),
      (k ∈ load_processed_archive (some c) ↔
        k ≠ "" ∧ ∃ line ∈ splitLines c, pyStrip line = k) := by
  refine ⟨rfl, ?_⟩
  intro c k
  simp only [load_processed_archive, List.mem_dedup, List.mem_filter, List.mem_map,
    decide_eq_true_eq]
  constructor
  · rintro ⟨⟨line, hline, rfl⟩, hne⟩
    exact ⟨hne, line, hline, rfl⟩
  · rintro ⟨hne, line, hline, rfl⟩
    exact ⟨⟨line, hline, rfl⟩, hne⟩

/-! ## C5: identifier resolution -/

/-- C5 (amended: the URL-scheme rule accepts exactly the prefix `https://`):
rules checked in order with first match winning — playlist/video marker gives
the identifier back as a singleton; `@`-handles give the two handle listing
URLs differing only in the trailing segment; `UC`-prefixed IDs give the two
canonical channel URLs; `https://`-prefixed input is returned unchanged;
everything else is an error that terminates the run. -/
theorem claim_C5_resolver_rules (id : String) :
    ((containsSub id "playlist?list=" = true ∨ containsSub id "watch?v=" = true) →
      get_valid_url id = .ok [id])
  ∧ (containsSub id "playlist?list=" = false → containsSub id "watch?v=" = false →
      strStartsWith id "@" = true →
      get_valid_url id = .ok ["https://www.youtube.com/" ++ id ++ "/videos",
                              "https://www.youtube.com/" ++ id ++ "/shorts"])
  ∧ (containsSub id "playlist?list=" = false → containsSub id "watch?v=" = false →
      strStartsWith id "@" = false → strStartsWith id "UC" = true →
      get_valid_url id = .ok ["https://www.youtube.com/channel/" ++ id ++ "/videos",
                              "https://www.youtube.com/channel/" ++ id ++ "/shorts"])
  ∧ (containsSub id "playlist?list=" = false → containsSub id "watch?v=" = false →
      strStartsWith id "@" = false → strStartsWith id "UC" = false →
      strStartsWith id "https://" = true →
      get_valid_url id = .ok [id])
  ∧ (containsSub id "playlist?list=" = false → containsSub id "watch?v=" = false →
      strStartsWith id "@" = false → strStartsWith id "UC" = false →
      strStartsWith id "https://" = false →
      get_valid_url id = .error "Invalid identifier or URL.") := by
  refine ⟨?_, ?_, ?_, ?_, ?_⟩
  · intro h
    simp [get_valid_url, h]
  · intro h1 h2 h3
    simp [get_valid_url, h1, h2, h3]
  · intro h1 h2 h3 h4
    simp [get_valid_url, h1, h2, h3, h4]
  · intro h1 h2 h3 h4 h5
    simp [get_valid_url, h1, h2, h3, h4, h5]
  · intro h1 h2 h3 h4 h5
    simp [get_valid_url, h1, h2, h3, h4, h5]

/-- C5 witness: the handle `@abc` resolves to exactly its videos and shorts
listing URLs. -/
theorem claim_C5_witness :
    get_valid_url "@abc" = .ok ["https://www.youtube.com/" ++ "@abc" ++ "/videos",
                                "https://www.youtube.com/" ++ "@abc" ++ "/shorts"] :=
  (claim_C5_resolver_rules "@abc").2.1 (by decide) (by decide) (by decide)

/-- C5 counterexample: `http://example.com/a` begins with a full URL scheme,
yet the resolver rejects it (only `https://` is accepted). -/
theorem claim_C5_counterexample :
    strStartsWith "http://example.com/a" "http://" = true
  ∧ get_valid_url "http://example.com/a" = .error "Invalid identifier or URL." := by
  constructor
  · decide
  · rfl

/-! ## C7: archive append idempotence -/

lemma mem_setAdd {l : List String} {k a : String} :
    a ∈ setAdd l k ↔ a ∈ l ∨ a = k := by
  unfold setAdd
  by_cases h : k ∈ l
  · simp only [if_pos h]
    constructor
    · exact Or.inl
    · rintro (h1 | rfl)
      · exact h1
      · exact h
  · simp [if_neg h]

lemma splitLinesAux_append_newline (s t : List Char) :
    ∀ acc, splitLinesAux acc (s ++ '\n' :: t) = splitLinesAux acc s ++ splitLinesAux [] t := by
  induction s with
  | nil => intro acc; simp [splitLinesAux]
  | cons c s ih =>
      intro acc
      by_cases hc : c = '\n'
      · subst hc
        simp [splitLinesAux, ih]
      · simp [splitLinesAux, hc, ih]

lemma splitLinesAux_of_no_newline (s : List Char) (h : '\n' ∉ s) :
    ∀ acc, splitLinesAux acc s = [acc.reverse ++ s] := by
  induction s with
  | nil => intro acc; simp [splitLinesAux]
  | cons c s ih =>
      intro acc
      have hc : ¬c = '\n' := fun hh => h (hh ▸ List.mem_cons_self c s)
      have hs : '\n' ∉ s := fun hh => h (List.mem_cons_of_mem _ hh)
      simp only [splitLinesAux, if_neg hc]
      rw [ih hs]
      simp

/-- The backing file after appending `k` twice, split into lines: whatever the
prior contents produce when extended with `k`, then a full `k` line, then the
empty tail after the final newline. -/
lemma lines_after_two_appends (arch : ArchiveState) (k : String) (hnl : '\n' ∉ k.data) :
    splitLines (save_to_processed_archive (save_to_processed_archive arch k) k).file
      = (splitLinesAux [] (arch.file.data ++ k.data)).map (fun l => String.mk l) ++ [k, ""] := by
  have hfile : (save_to_processed_archive (save_to_processed_archive arch k) k).file
      = ((arch.file ++ k) ++ "\n") ++ (k ++ "\n") := by
    simp [save_to_processed_archive, String.append_assoc]
  have hdata : (((arch.file ++ k) ++ "\n") ++ (k ++ "\n")).data
      = (arch.file.data ++ k.data) ++ ('\n' :: (k.data ++ ['\n'])) := by
    simp only [String.data_append]
    simp [List.append_assoc]
  rw [splitLines, hfile, hdata, splitLinesAux_append_newline]
  have h2 : k.data ++ ['\n'] = k.data ++ '\n' :: ([] : List Char) := rfl
  rw [h2, splitLinesAux_append_newline, splitLinesAux_of_no_newline k.data hnl]
  simp [splitLinesAux]

/-- C7 (amended: restricted to keys that are non-empty, contain no newline and
carry no surrounding whitespace — exactly the keys that survive a line-based
reload): appending `k` twice makes the membership test true, a fresh load of
the backing file contains `k`, the loaded set holds `k` exactly once, and when
the prior contents end at a line boundary the file physically holds the `k`
line at least twice. -/
theorem claim_C7_archive_idempotence (arch : ArchiveState) (k : String)
    (hstrip : pyStrip k = k) (hne : k ≠ "") (hnl : '\n' ∉ k.data) :
    k ∈ (save_to_processed_archive (save_to_processed_archive arch k) k).mem
  ∧ k ∈ load_processed_archive
      (some (save_to_processed_archive (save_to_processed_archive arch k) k).file)
  ∧ (load_processed_archive
      (some (save_to_processed_archive (save_to_processed_archive arch k) k).file)).count k = 1
  ∧ ((arch.file = "" ∨ (∃ r, arch.file.data = r ++ ['\n'])) →
      2 ≤ (splitLines (save_to_processed_archive
            (save_to_processed_archive arch k) k).file).count k) := by
  have hlines := lines_after_two_appends arch k hnl
  have hmemload : k ∈ load_processed_archive
      (some (save_to_processed_archive (save_to_processed_archive arch k) k).file) := by
    simp only [load_processed_archive, List.mem_dedup, List.mem_filter, List.mem_map,
      decide_eq_true_eq]
    refine ⟨⟨k, ?_, hstrip⟩, hne⟩
    rw [hlines]
    simp
  refine ⟨?_, hmemload, ?_, ?_⟩
  · simp only [save_to_processed_archive]
    exact mem_setAdd.mpr (Or.inr rfl)
  · exact List.count_eq_one_of_mem (List.nodup_dedup _) hmemload
  · rintro (hF | ⟨r, hr⟩)
    · rw [hlines, hF]
      have : (("" : String)).data = [] := rfl
      rw [this]
      simp only [List.nil_append]
      rw [splitLinesAux_of_no_newline k.data hnl]
      simp only [List.reverse_nil, List.nil_append, List.map_cons, List.map_nil,
        List.count_append]
      have hk : String.mk k.data = k := rfl
      rw [hk]
      have h1 : List.count k [k] = 1 := by simp
      have h2 : List.count k [k, ""] = 1 := by
        have : k ∉ [""] := by simpa using hne
        simp [List.count_cons, this, hne]
      omega
    · rw [hlines, hr]
      have hsplit : (r ++ ['\n']) ++ k.data = r ++ '\n' :: k.data := by
        simp
      rw [hsplit, splitLinesAux_append_newline, splitLinesAux_of_no_newline k.data hnl]
      simp only [List.reverse_nil, List.nil_append, List.map_append, List.map_cons,
        List.map_nil, List.count_append]
      have hk : String.mk k.data = k := rfl
      rw [hk]
      have h1 : List.count k [k] = 1 := by simp
      have h2 : List.count k [k, ""] = 1 := by
        have : k ∉ [""] := by simpa using hne
        simp [List.count_cons, this, hne]
      omega

/-- C7 witness: the key `a.mp4`, appended twice to an empty archive, is a
member, reloads to a single occurrence, and the file holds its line twice. -/
theorem claim_C7_witness :
    "a.mp4" ∈ (save_to_processed_archive (save_to_processed_archive ⟨"", []⟩ "a.mp4") "a.mp4").mem
  ∧ "a.mp4" ∈ load_processed_archive
      (some (save_to_processed_archive (save_to_processed_archive ⟨"", []⟩ "a.mp4") "a.mp4").file)
  ∧ (load_processed_archive
      (some (save_to_processed_archive
        (save_to_processed_archive ⟨"", []⟩ "a.mp4") "a.mp4").file)).count "a.mp4" = 1
  ∧ 2 ≤ (splitLines (save_to_processed_archive
        (save_to_processed_archive ⟨"", []⟩ "a.mp4") "a.mp4").file).count "a.mp4" := by
  have h := claim_C7_archive_idempotence ⟨"", []⟩ "a.mp4" (by decide) (by decide) (by decide)
  exact ⟨h.1, h.2.1, h.2.2.1, h.2.2.2 (Or.inl rfl)⟩

/-- C7 counterexample: for the key `" "` (a single space) two appends leave it
in the in-memory set, but a fresh load of the backing file strips its lines to
empty and drops them, so the reloaded set does not contain the key at all. -/
theorem claim_C7_counterexample :
    " " ∈ (save_to_processed_archive (save_to_processed_archive ⟨"", []⟩ " ") " ").mem
  ∧ " " ∉ load_processed_archive
      (some (save_to_processed_archive (save_to_processed_archive ⟨"", []⟩ " ") " ").file) := by
  constructor
  · decide
  · decide

/-! ## Progress-hook lemmas -/

lemma barsGet_barsSet_self (l : List (String × Int)) (k : String) (v : Int) :
    barsGet (barsSet l k v) k = some v := by
  induction l with
  | nil => simp [barsSet, barsGet]
  | cons p rest ih =>
      obtain ⟨a, b⟩ := p
      by_cases h : a = k
      · simp [barsSet, barsGet, h]
      · simp [barsSet, barsGet, h, ih]

lemma barsSet_eq_self {l : List (String × Int)} {k : String} {v : Int}
    (h : barsGet l k = some v) : barsSet l k v = l := by
  induction l with
  | nil => simp [barsGet] at h
  | cons p rest ih =>
      obtain ⟨a, b⟩ := p
      by_cases hak : a = k
      · subst hak
        simp [barsGet] at h
        subst h
        simp [barsSet]
      · simp only [barsGet, if_neg hak] at h
        simp [barsSet, hak, ih h]

/-- A `downloading` event sets the displayed counter of its item to exactly
the reported downloaded-bytes value (the bar is created at zero first if
absent, then advanced by `downloaded - pbar.n`). -/
lemma progress_hook_downloading_sets (st : DState) (d : HookEvent)
    (h1 : d.status = "downloading") (h2 : hookFileId d ≠ "") :
    barsGet (progress_hook st d).bars (hookFileId d)
      = some (Int.ofNat (d.downloadedBytes.getD 0)) := by
  simp only [progress_hook, h1, if_neg h2]
  simp only [String.reduceEq, reduceIte, if_pos rfl]
  rw [barsGet_barsSet_self]
  congr 1
  omega

/-- A `downloading` event whose reported value already equals the displayed
counter leaves the whole state unchanged. -/
lemma progress_hook_downloading_noop (s : DState) (d : HookEvent)
    (h1 : d.status = "downloading") (h2 : hookFileId d ≠ "")
    (hsome : barsGet s.bars (hookFileId d) = some (Int.ofNat (d.downloadedBytes.getD 0))) :
    progress_hook s d = s := by
  have hnotnone : (barsGet s.bars (hookFileId d)).isNone = false := by
    rw [hsome]
    rfl
  simp only [progress_hook, h1, if_neg h2]
  simp only [String.reduceEq, reduceIte, if_pos rfl]
  simp only [hnotnone, Bool.false_eq_true, if_false]
  rw [hsome]
  simp only [Option.getD_some]
  have harith : (Int.ofNat (d.downloadedBytes.getD 0)) +
      ((Int.ofNat (d.downloadedBytes.getD 0)) - (Int.ofNat (d.downloadedBytes.getD 0)))
      = Int.ofNat (d.downloadedBytes.getD 0) := by omega
  rw [harith, barsSet_eq_self hsome]

/-- The progress hook never touches the processed archive (it only reads it
for the membership check). -/
lemma progress_hook_archive (st : DState) (d : HookEvent) :
    (progress_hook st d).archive = st.archive := by
  simp only [progress_hook]
  repeat' split
  all_goals rfl

/-! ## C3: progress display under duplicate and out-of-order events -/

/-- C3 (amended: there is no monotonic guard — the displayed counter always
equals the most recently reported downloaded-bytes value, so duplicate events
leave the display unchanged, while a later event reporting a smaller value
regresses the display to that value): after any `downloading` event the item's
displayed counter is exactly the event's reported value, and delivering the
same event again is a no-op. -/
theorem claim_C3_display_tracks_last_value (st : DState) (d : HookEvent)
    (h1 : d.status = "downloading") (h2 : hookFileId d ≠ "") :
    barsGet (progress_hook st d).bars (hookFileId d)
        = some (Int.ofNat (d.downloadedBytes.getD 0))
  ∧ progress_hook (progress_hook st d) d = progress_hook st d := by
  refine ⟨progress_hook_downloading_sets st d h1 h2, ?_⟩
  exact progress_hook_downloading_noop (progress_hook st d) d h1 h2
    (progress_hook_downloading_sets st d h1 h2)

/-- C3 witness: one `downloading` event reporting 10 bytes displays 10, and a
duplicate of it changes nothing. -/
theorem claim_C3_witness :
    barsGet (progress_hook (mkDownloader {} none)
        { status := "downloading", infoId := some "v", downloadedBytes := some 10 }).bars "v"
      = some 10
  ∧ progress_hook (progress_hook (mkDownloader {} none)
        { status := "downloading", infoId := some "v", downloadedBytes := some 10 })
        { status := "downloading", infoId := some "v", downloadedBytes := some 10 }
      = progress_hook (mkDownloader {} none)
        { status := "downloading", infoId := some "v", downloadedBytes := some 10 } := by
  have h := claim_C3_display_tracks_last_value (mkDownloader {} none)
    { status := "downloading", infoId := some "v", downloadedBytes := some 10 }
    rfl (by decide)
  exact h

/-- C3 counterexample: after events reporting 10 then 5 downloaded bytes for
the same item, the displayed counter drops from 10 to 5 — the display does
regress on an out-of-order smaller value. -/
theorem claim_C3_counterexample :
    barsGet (progress_hook (mkDownloader {} none)
        { status := "downloading", infoId := some "v", downloadedBytes := some 10 }).bars "v"
      = some 10
  ∧ barsGet (progress_hook
        (progress_hook (mkDownloader {} none)
          { status := "downloading", infoId := some "v", downloadedBytes := some 10 })
        { status := "downloading", infoId := some "v", downloadedBytes := some 5 }).bars "v"
      = some 5
  ∧ (5 : Int) < 10 := by
  refine ⟨by decide, by decide, by decide⟩

/-! ## C2: enqueueing on completion events -/

/-- C2 (amended: the hook first derives an item key — the engine id, falling
back to the destination path's base name — and discards the event when that
key is empty, so a present destination path whose base name is empty and which
carries no id is dropped as well): a completion event enqueues its destination
path if and only if the event is a `finished` event with a non-empty item key
and a present (truthy) destination path, skip-processing mode is off, and the
path is not already in the ProcessedArchive; in every other case the queue is
unchanged. -/
theorem claim_C2_enqueue_iff (st : DState) (d : HookEvent) :
    (progress_hook st d).files_to_process =
      if d.status = "finished" ∧ hookFileId d ≠ "" ∧ optTruthy d.filename = true
         ∧ st.args.skip_processing = false ∧ d.filename.getD "" ∉ st.archive.mem
      then st.files_to_process ++ [d.filename.getD ""]
      else st.files_to_process := by
  by_cases h0 : hookFileId d = ""
  · simp [progress_hook, h0]
  · by_cases h2 : d.status = "finished"
    · cases ho : optTruthy d.filename with
      | false => simp [progress_hook, h0, h2, ho]
      | true =>
          cases hsp : st.args.skip_processing with
          | false =>
              by_cases hc : d.filename.getD "" ∈ st.archive.mem
              · simp [progress_hook, h0, h2, ho, hsp, hc]
              · simp [progress_hook, h0, h2, ho, hsp, hc]
          | true => simp [progress_hook, h0, h2, ho, hsp]
    · by_cases h1 : d.status = "downloading"
      · simp [progress_hook, h0, h1, h2]
      · simp [progress_hook, h0, h1, h2]

/-- C2 counterexample: a `finished` event with no engine id and the present
destination path `x/` (whose base name is empty) satisfies every condition of
the claim — path present, skip-processing off, not in the archive — yet
nothing is enqueued, because the empty derived key aborts the hook early. -/
theorem claim_C2_counterexample :
    optTruthy (some "x/") = true
  ∧ (mkDownloader {} none).args.skip_processing = false
  ∧ "x/" ∉ (mkDownloader {} none).archive.mem
  ∧ (progress_hook (mkDownloader {} none)
      { status := "finished", filename := some "x/" }).files_to_process = [] := by
  refine ⟨by decide, rfl, by decide, by decide⟩

/-! ## C4: which stages write the processed archive -/

lemma process_single_video_archive (args : Args) (arch : ArchiveState) (fn : String)
    (t : TranscodeOutcome) :
    (process_single_video args arch fn t).archive =
      if args.audio_only = false
         ∧ strEndsWith (splitext fn).1 args.filename_suffix = false
         ∧ t.exitCode = 0 ∧ t.outputExists = true ∧ 0 < t.outputSize
      then save_to_processed_archive arch
        ((splitext fn).1 ++ "_" ++ args.filename_suffix ++ ".mp4")
      else arch := by
  cases ha : args.audio_only with
  | true => simp [process_single_video, ha]
  | false =>
      cases hsuf : strEndsWith (splitext fn).1 args.filename_suffix with
      | true => simp [process_single_video, ha, hsuf]
      | false =>
          by_cases he : t.exitCode = 0
          · by_cases hout : t.outputExists = true ∧ 0 < t.outputSize
            · simp [process_single_video, ha, hsuf, he, hout]
            · simp [process_single_video, ha, hsuf, he, hout]
          · simp [process_single_video, ha, hsuf, he]

lemma audio_events_eq (args : Args) (renameFails : String → Bool) :
    ∀ (tasks : List String) (arch : ArchiveState),
      (process_audio_files args renameFails arch tasks).2
        = tasks.map (audioEventFor args renameFails) := by
  intro tasks
  induction tasks with
  | nil => intro arch; rfl
  | cons f rest ih =>
      intro arch
      cases hsuf : strEndsWith (splitext f).1 args.filename_suffix with
      | false =>
          cases hf : renameFails f with
          | true => simp [process_audio_files, hsuf, hf, audioEventFor, ih]
          | false => simp [process_audio_files, hsuf, hf, audioEventFor, audioNewName, ih]
      | true => simp [process_audio_files, hsuf, audioEventFor, ih]

lemma audio_mem_iff (args : Args) (renameFails : String → Bool) :
    ∀ (tasks : List String) (arch : ArchiveState) (k : String),
      k ∈ (process_audio_files args renameFails arch tasks).1.mem ↔
        k ∈ arch.mem ∨ ∃ f ∈ tasks,
          strEndsWith (splitext f).1 args.filename_suffix = false
          ∧ renameFails f = false ∧ k = audioNewName args f := by
  intro tasks
  induction tasks with
  | nil => intro arch k; simp [process_audio_files]
  | cons f rest ih =>
      intro arch k
      cases hsuf : strEndsWith (splitext f).1 args.filename_suffix with
      | false =>
          cases hf : renameFails f with
          | true =>
              simp only [process_audio_files, hsuf, hf]
              simp only [Bool.false_eq_true, if_false, if_true, if_pos rfl]
              rw [ih arch k]
              simp [hf]
          | false =>
              simp only [process_audio_files, hsuf, hf]
              simp only [Bool.false_eq_true, if_false, if_true, if_pos rfl]
              rw [ih]
              simp only [save_to_processed_archive, mem_setAdd, audioNewName]
              constructor
              · rintro ((h | h) | h)
                · exact Or.inl h
                · exact Or.inr ⟨f, List.mem_cons_self f rest, hsuf, hf, h⟩
                · rcases h with ⟨g, hg, hgs, hgf, hk⟩
                  exact Or.inr ⟨g, List.mem_cons_of_mem f hg, hgs, hgf, hk⟩
              · rintro (h | ⟨g, hg, hgs, hgf, hk⟩)
                · exact Or.inl (Or.inl h)
                · rcases List.mem_cons.mp hg with rfl | hg2
                  · exact Or.inl (Or.inr hk)
                  · exact Or.inr ⟨g, hg2, hgs, hgf, hk⟩
      | true =>
          simp only [process_audio_files, hsuf]
          simp only [Bool.true_eq_false, if_false]
          rw [ih arch k]
          simp [hsuf]

/-- C4 (amended: the ProcessedArchive is written only by the Processing
Pipeline — the Fetch Coordinator's completion handling reads it for the
skip decision but never mutates it): the progress hook leaves the archive
unchanged on every event; the video stage appends exactly the derived output
path and only on a fully successful transcode; the audio stage's archive
membership after a pass is the initial membership plus exactly the new names
of the successfully renamed files. -/
theorem claim_C4_archive_writers :
    (∀ (st : DState) (d : HookEvent), (progress_hook st d).archive = st.archive)
  ∧ (∀ (args : Args) (arch : ArchiveState) (fn : String) (t : TranscodeOutcome),
      (process_single_video args arch fn t).archive =
        if args.audio_only = false
           ∧ strEndsWith (splitext fn).1 args.filename_suffix = false
           ∧ t.exitCode = 0 ∧ t.outputExists = true ∧ 0 < t.outputSize
        then save_to_processed_archive arch
          ((splitext fn).1 ++ "_" ++ args.filename_suffix ++ ".mp4")
        else arch)
  ∧ (∀ (args : Args) (renameFails : String → Bool) (arch : ArchiveState)
        (tasks : List String) (k : String),
      k ∈ (process_audio_files args renameFails arch tasks).1.mem ↔
        k ∈ arch.mem ∨ ∃ f ∈ tasks,
          strEndsWith (splitext f).1 args.filename_suffix = false
          ∧ renameFails f = false ∧ k = audioNewName args f) :=
  ⟨progress_hook_archive,
   fun args arch fn t => process_single_video_archive args arch fn t,
   fun args renameFails arch tasks k => audio_mem_iff args renameFails tasks arch k⟩

/-- C4 counterexample: a successful completion handled by the Fetch
Coordinator (`finished` event for a new file, which it accepts and enqueues)
leaves the ProcessedArchive exactly as it was — the Fetch Coordinator never
writes the archive, contradicting the claim that both stages mutate it. -/
theorem claim_C4_counterexample :
    (progress_hook (mkDownloader {} none)
        { status := "finished", infoId := some "v",
          filename := some "downloads/a.mp4" }).files_to_process
      = ["downloads/a.mp4"]
  ∧ (progress_hook (mkDownloader {} none)
        { status := "finished", infoId := some "v",
          filename := some "downloads/a.mp4" }).archive
      = (mkDownloader {} none).archive
  ∧ (progress_hook (mkDownloader {} none)
        { status := "finished", infoId := some "v",
          filename := some "downloads/a.mp4" }).archive.mem = [] := by
  refine ⟨by decide, by decide, by decide⟩

/-! ## C8: audio-only processing pass -/

/-- C8: in an audio-only run the transcoder path is inert —
`process_single_video` returns immediately with no ffmpeg invocation and no
state change — and the rename pass handles every queued file in one
sequential sweep: a file whose base name already ends with the suffix is
skipped, a file whose rename fails is only logged (the pass continues, so the
event list keeps one entry per task), and each successfully renamed file's
new path — suffix inserted before the original extension — is added to the
ProcessedArchive, which afterwards holds exactly the old members plus those
new paths. -/
theorem claim_C8_audio_mode (args : Args) (renameFails : String → Bool)
    (arch arch2 : ArchiveState) (tasks : List String) (fn : String)
    (t : TranscodeOutcome) (k : String) (ha : args.audio_only = true) :
    process_single_video args arch2 fn t
      = ⟨.skipped, arch2, false, false, none⟩
  ∧ (process_audio_files args renameFails arch tasks).2
      = tasks.map (audioEventFor args renameFails)
  ∧ (k ∈ (process_audio_files args renameFails arch tasks).1.mem ↔
      k ∈ arch.mem ∨ ∃ f ∈ tasks,
        strEndsWith (splitext f).1 args.filename_suffix = false
        ∧ renameFails f = false ∧ k = audioNewName args f) := by
  refine ⟨?_, audio_events_eq args renameFails tasks arch,
    audio_mem_iff args renameFails tasks arch k⟩
  simp [process_single_video, ha]

/-- C8 witness: an audio-only run over the two completed items `a.mp3` and
`b.mp3`: the transcoder step is inert, both files produce rename events, and
the renamed path of the first is in the archive afterwards. -/
theorem claim_C8_witness :
    process_single_video { audio_only := true } ⟨"", []⟩ "x.mp4" ⟨0, true, 1⟩
      = ⟨.skipped, ⟨"", []⟩, false, false, none⟩
  ∧ (process_audio_files { audio_only := true } (fun _ => false) ⟨"", []⟩
        ["a.mp3", "b.mp3"]).2
      = ["a.mp3", "b.mp3"].map (audioEventFor { audio_only := true } (fun _ => false))
  ∧ ("a_Processed.mp3" ∈ (process_audio_files { audio_only := true } (fun _ => false)
        ⟨"", []⟩ ["a.mp3", "b.mp3"]).1.mem ↔
      "a_Processed.mp3" ∈ (⟨"", []⟩ : ArchiveState).mem
      ∨ ∃ f ∈ ["a.mp3", "b.mp3"],
          strEndsWith (splitext f).1 ({ audio_only := true } : Args).filename_suffix = false
          ∧ (fun _ => false) f = false
          ∧ "a_Processed.mp3" = audioNewName { audio_only := true } f) :=
  claim_C8_audio_mode { audio_only := true } (fun _ => false) ⟨"", []⟩ ⟨"", []⟩
    ["a.mp3", "b.mp3"] "x.mp4" ⟨0, true, 1⟩ "a_Processed.mp3" rfl

/-! ## C1: video-mode success and failure handling -/

/-- C1: for a video-mode task that reaches the transcoder (not audio-only,
base name not already suffixed), the task succeeds exactly when ffmpeg exits
with status zero and the output file exists with positive size; then the
output path is appended to the ProcessedArchive and the source is deleted
unless keep-original is set; on a non-zero exit, or a zero exit with a
missing or empty output, the archive is unchanged, the source is kept, and a
failure result is recorded. -/
theorem claim_C1_video_success_criteria (args : Args) (arch : ArchiveState) (fn : String)
    (t : TranscodeOutcome) (h1 : args.audio_only = false)
    (h2 : strEndsWith (splitext fn).1 args.filename_suffix = false) :
    ((∃ out, (process_single_video args arch fn t).result = .success out) ↔
      (t.exitCode = 0 ∧ t.outputExists = true ∧ 0 < t.outputSize))
  ∧ ((t.exitCode = 0 ∧ t.outputExists = true ∧ 0 < t.outputSize) →
      (process_single_video args arch fn t).result
          = .success ((splitext fn).1 ++ "_" ++ args.filename_suffix ++ ".mp4")
        ∧ (process_single_video args arch fn t).archive
          = save_to_processed_archive arch
              ((splitext fn).1 ++ "_" ++ args.filename_suffix ++ ".mp4")
        ∧ (process_single_video args arch fn t).sourceDeleted = !args.keep_original)
  ∧ (¬(t.exitCode = 0 ∧ t.outputExists = true ∧ 0 < t.outputSize) →
      (process_single_video args arch fn t).archive = arch
        ∧ (process_single_video args arch fn t).sourceDeleted = false
        ∧ ∃ m, (process_single_video args arch fn t).result = .failure m) := by
  by_cases he : t.exitCode = 0
  · by_cases hout : t.outputExists = true ∧ 0 < t.outputSize
    · simp [process_single_video, h1, h2, he, hout]
    · simp [process_single_video, h1, h2, he, hout]
  · simp [process_single_video, h1, h2, he]

/-- C1 witness: `a.mp4` with a zero-exit transcode and a 5-byte output is
reported successful, the output path is archived, and the source is deleted
(keep-original is off). -/
theorem claim_C1_witness :
    (process_single_video {} ⟨"", []⟩ "a.mp4" ⟨0, true, 5⟩).result
        = .success ((splitext "a.mp4").1 ++ "_" ++ ({} : Args).filename_suffix ++ ".mp4")
  ∧ (process_single_video {} ⟨"", []⟩ "a.mp4" ⟨0, true, 5⟩).archive
        = save_to_processed_archive ⟨"", []⟩
            ((splitext "a.mp4").1 ++ "_" ++ ({} : Args).filename_suffix ++ ".mp4")
  ∧ (process_single_video {} ⟨"", []⟩ "a.mp4" ⟨0, true, 5⟩).sourceDeleted
        = !({} : Args).keep_original :=
  (claim_C1_video_success_criteria {} ⟨"", []⟩ "a.mp4" ⟨0, true, 5⟩ rfl (by decide)).2.1
    ⟨rfl, rfl, by decide⟩
